import Mathlib

/-
Verification of the nodeguarder eBPF probe `src/agent/ebpf/cron_exit.c`
(with kernel structure layouts from `src/agent/ebpf/vmlinux.h`).

The probe consists of two tracepoint handlers sharing one hash map:
`handle_fork` enrolls children of cron-family parents into the
`monitored_pids` map, and `handle_exit` looks up the exiting pid,
assembles a `struct event` (pids, namespace pids, decoded exit code,
fresh comm) and emits it on a perf event array, then deletes the map
entry. The helper `get_task_ns_pid` resolves the innermost-namespace
pid with a clamped index into the 8-entry `numbers` array of
`struct pid`.

Bytes and 32-bit values are embedded as natural numbers; the hash map
is embedded as a finite set of pids (the one-byte marker value carries
no information), with the 10240-entry capacity made explicit in the
insert operation.
-/

namespace NodeGuarder

/-- Capacity of the `monitored_pids` hash map: `max_entries` is 10240 in the
map definition of cron_exit.c. -/
def mapCapacity : ℕ := 10240

/-- The `monitored_pids` BPF hash map, keyed by u32 pid with a one-byte marker
value. Only membership matters, so it is embedded as a finite set of pids. -/
abbrev PidMap := Finset ℕ

/-- `bpf_map_update_elem` with flag `BPF_ANY` on a hash map: overwriting an
existing key always succeeds (membership unchanged); inserting a fresh key
fails silently when the map already holds `mapCapacity` entries. -/
def mapUpdate (m : PidMap) (k : ℕ) : PidMap :=
  if k ∈ m then m
  else if m.card < mapCapacity then insert k m
  else m

/-- `bpf_map_delete_elem`: removes the key if present, a no-op otherwise. -/
def mapDelete (m : PidMap) (k : ℕ) : PidMap := m.erase k

/-- The parent-comm test of `handle_fork` (cron_exit.c lines 57-59), translated
byte for byte. Byte values 99 114 111 110 100 are the characters c r o n d and
67 82 79 78 are C R O N. The comm buffer is 16 bytes; out-of-range reads
default to 0, which never occurs for the in-bounds indices 0..4 used here. -/
def commMatch (c : List ℕ) : Bool :=
  (c.getD 0 0 == 99 && c.getD 1 0 == 114 && c.getD 2 0 == 111 && c.getD 3 0 == 110) ||
  (c.getD 0 0 == 67 && c.getD 1 0 == 82 && c.getD 2 0 == 79 && c.getD 3 0 == 78) ||
  (c.getD 0 0 == 99 && c.getD 1 0 == 114 && c.getD 2 0 == 111 && c.getD 3 0 == 110 &&
   c.getD 4 0 == 100)

/-- Byte values of the pattern "cron". -/
def cronBytes : List ℕ := [99, 114, 111, 110]

/-- Byte values of the pattern "CRON". -/
def cronUpperBytes : List ℕ := [67, 82, 79, 78]

/-- Byte values of the pattern "crond". -/
def crondBytes : List ℕ := [99, 114, 111, 110, 100]

/-- The filter as the specification phrases it: the first four bytes equal
"cron", or the first four bytes equal "CRON", or the first five bytes equal
"crond". Stated over `List.take` for comparison with `commMatch`. -/
def matchesPatterns (c : List ℕ) : Prop :=
  c.take 4 = cronBytes ∨ c.take 4 = cronUpperBytes ∨ c.take 5 = crondBytes

/-- Result of one `handle_fork` invocation: the map afterwards, the number of
`bpf_map_update_elem` calls performed, and the handler return value. -/
structure ForkResult where
  map : PidMap
  updates : ℕ
  ret : ℤ

/-- `handle_fork` (cron_exit.c lines 51-66): read the current (parent) comm,
and if it matches the cron-name filter, upsert the child pid into
`monitored_pids` with `BPF_ANY`; always return 0. -/
def handle_fork (m : PidMap) (parent_comm : List ℕ) (child_pid : ℕ) : ForkResult :=
  if commMatch parent_comm then
    { map := mapUpdate m child_pid, updates := 1, ret := 0 }
  else
    { map := m, updates := 0, ret := 0 }

/-- `struct pid` from vmlinux.h: the namespace-nesting depth counter `level`
(an unsigned int) and the per-level id array `numbers[8]` (each entry carrying
the id `nr` for that nesting level). -/
structure PidStruct where
  level : ℕ
  numbers : List ℕ
  deriving DecidableEq

/-- `get_task_ns_pid` (cron_exit.c lines 68-76): if `0 < level < 8` return
`numbers[level].nr`, otherwise return `numbers[0].nr`. The C array read is
embedded with `getD` (the totalised read); `get_task_ns_pidO` below is the
bounds-checked version used for the safety claim. -/
def get_task_ns_pid (p : PidStruct) : ℕ :=
  if 0 < p.level ∧ p.level < 8 then p.numbers.getD p.level 0
  else p.numbers.getD 0 0

/-- The same index computation as `get_task_ns_pid` but with an
`Option`-returning array read, to state that every access is in bounds. -/
def get_task_ns_pidO (p : PidStruct) : Option ℕ :=
  if 0 < p.level ∧ p.level < 8 then p.numbers.get? p.level
  else p.numbers.get? 0

/-- The fields `handle_exit` reads from the real-parent `task_struct`:
its global pid and its `thread_pid` identity structure. -/
structure ParentTask where
  pid : ℕ
  thread_pid : PidStruct
  deriving DecidableEq

/-- The fields `handle_exit` reads from the exiting `task_struct`: the global
pid (from `bpf_get_current_pid_tgid`), the current comm (read fresh at exit
time by `bpf_get_current_comm`), the raw 32-bit wait status `exit_code`, the
`thread_pid` identity structure, and the `real_parent` pointer (None when
null). -/
structure TaskState where
  pid : ℕ
  comm : List ℕ
  exit_code : ℕ
  thread_pid : PidStruct
  real_parent : Option ParentTask
  deriving DecidableEq

/-- `BPF_CORE_READ(task, real_parent, pid)` (cron_exit.c line 97): the chained
probe read dereferences `real_parent`; on a null parent the probe read faults
and leaves the zero-initialised destination, yielding 0. -/
def readParentPid (t : TaskState) : ℕ :=
  match t.real_parent with
  | some p => p.pid
  | none => 0

/-- The namespace pid of the real parent, with the explicit null check of
cron_exit.c lines 102-107: 0 when `real_parent` is null. -/
def nsParentPidOf (t : TaskState) : ℕ :=
  match t.real_parent with
  | some p => get_task_ns_pid p.thread_pid
  | none => 0

/-- Exit-code decoding of cron_exit.c lines 110-114, applied to the raw 32-bit
wait-status bit pattern: first `(raw >> 8) & 0xFF`, then overwritten with
`128 + (raw & 0x7F)` when the low 7 bits are nonzero. -/
def decode_exit_code (raw : ℕ) : ℕ :=
  let code := (raw >>> 8) &&& 0xFF
  if raw &&& 0x7F ≠ 0 then 128 + (raw &&& 0x7F) else code

/-- `struct event` (cron_exit.c lines 28-35), in declaration order:
`pid:u32, parent_pid:u32, ns_pid:u32, ns_parent_pid:u32, exit_code:i32,
comm:u8[16]`. -/
structure Event where
  pid : ℕ
  parent_pid : ℕ
  ns_pid : ℕ
  ns_parent_pid : ℕ
  exit_code : ℕ
  comm : List ℕ
  deriving DecidableEq

/-- Result of one `handle_exit` invocation: the map afterwards, the events
delivered on the perf channel, and the handler return value. -/
structure ExitResult where
  map : PidMap
  emitted : List Event
  ret : ℤ

/-- `handle_exit` (cron_exit.c lines 80-120): look the exiting pid up in
`monitored_pids`; on a hit assemble the event (fresh comm, live parent pid,
namespace pids via `get_task_ns_pid`, decoded exit code), emit it with
`bpf_perf_event_output` (delivery succeeds exactly when `channelOk`, the
best-effort write), and delete the map entry unconditionally; always
return 0. On a miss do nothing. -/
def handle_exit (m : PidMap) (t : TaskState) (channelOk : Bool) : ExitResult :=
  if t.pid ∈ m then
    let evt : Event :=
      { pid := t.pid
        parent_pid := readParentPid t
        ns_pid := get_task_ns_pid t.thread_pid
        ns_parent_pid := nsParentPidOf t
        exit_code := decode_exit_code t.exit_code
        comm := t.comm }
    { map := mapDelete m t.pid
      emitted := if channelOk then [evt] else []
      ret := 0 }
  else
    { map := m, emitted := [], ret := 0 }

/-- Little-endian byte serialisation of one 32-bit field value. -/
def u32Bytes (n : ℕ) : List ℕ :=
  [n % 256, n / 256 % 256, n / 2 ^ 16 % 256, n / 2 ^ 24 % 256]

/-- Wire layout of `struct event`: the four u32 fields, the i32 field and the
16-byte comm array, in declaration order with no padding (every field offset
is a multiple of 4); 36 bytes in total. -/
def eventBytes (e : Event) : List ℕ :=
  u32Bytes e.pid ++ u32Bytes e.parent_pid ++ u32Bytes e.ns_pid ++
  u32Bytes e.ns_parent_pid ++ u32Bytes e.exit_code ++ e.comm

/-- One kernel event as seen by the probe: a fork (carrying the parent comm
that the fork handler reads and the child pid) or an exit of a task (carrying
the channel availability for the best-effort perf write). -/
inductive TraceEv where
  | fork (parent_comm : List ℕ) (child_pid : ℕ)
  | exitEv (t : TaskState) (channelOk : Bool)
  deriving DecidableEq

/-- One handler invocation acting on the tracking map. -/
def traceStep (m : PidMap) : TraceEv → PidMap
  | .fork c p => (handle_fork m c p).map
  | .exitEv t ok => (handle_exit m t ok).map

/-- The tracking map after a sequence of events, starting from the empty map
(the state of `monitored_pids` right after the probe is attached). -/
def runMap (es : List TraceEv) : PidMap := es.foldl traceStep ∅

/-- One step loses no insert to capacity: a fork whose parent comm matches
finds the child pid already present or room left in the map. -/
def stepNoLoss (m : PidMap) : TraceEv → Bool
  | .fork c p => !commMatch c || decide (p ∈ m) || decide (m.card < mapCapacity)
  | .exitEv _ _ => true

/-- `noLoss` below, generalised over the starting map. -/
def noLossAux (m : PidMap) : List TraceEv → Bool
  | [] => true
  | e :: es => stepNoLoss m e && noLossAux (traceStep m e) es

/-- No insert anywhere in the run is lost to map capacity. -/
def noLoss (es : List TraceEv) : Bool := noLossAux ∅ es

/-- Whether this event is an exit of the given pid. -/
def isExitOf (pid : ℕ) : TraceEv → Bool
  | .exitEv t _ => t.pid == pid
  | _ => false

/-- Whether this event is a fork of the given pid whose parent comm matched
the cron-name filter. -/
def isMatchingForkOf (pid : ℕ) : TraceEv → Bool
  | .fork c p => p == pid && commMatch c
  | _ => false

/-- Specification-side tracking state of one pid, folded over the events:
set by a matching fork of the pid, cleared by an exit of the pid, untouched
by anything else. -/
def trackedStep (pid : ℕ) (b : Bool) : TraceEv → Bool
  | .fork c p => if p == pid && commMatch c then true else b
  | .exitEv t _ => if t.pid == pid then false else b

/-- The membership condition of claim C4 as the specification phrases it:
some fork event enrolled the pid (the pid was the child and the parent comm
matched) and no exit event for that pid has been processed since that fork. -/
def trackedSpec (es : List TraceEv) (pid : ℕ) : Prop :=
  ∃ l c r, es = l ++ TraceEv.fork c pid :: r ∧ commMatch c = true ∧
    ∀ e ∈ r, isExitOf pid e = false

/-- A 16-byte comm buffer holding "cron" padded with NUL bytes. -/
def demoComm : List ℕ := [99, 114, 111, 110, 0, 0, 0, 0, 0, 0, 0, 0, 0, 0, 0, 0]

/-- A per-level id array of the maximal nesting depth 8. -/
def demoNumbers : List ℕ := [10, 11, 12, 13, 14, 15, 16, 17]

/-- A concrete exiting task used by the witnesses: pid 5, raw wait status
0x2A00 (exit value 42, no signal), no live real parent. -/
def demoTask : TaskState :=
  { pid := 5
    comm := demoComm
    exit_code := 0x2A00
    thread_pid := { level := 3, numbers := demoNumbers }
    real_parent := none }

/-- A second concrete task with a different pid, used for trace witnesses. -/
def demoTask7 : TaskState :=
  { pid := 7
    comm := demoComm
    exit_code := 0
    thread_pid := { level := 0, numbers := demoNumbers }
    real_parent := none }

/-- The concrete record that `handle_exit` emits for demoTask: parent fields
are 0 (null real parent), the namespace pid is the id at depth 3, and the
exit code decodes to 42. -/
def demoEvent : Event :=
  { pid := 5
    parent_pid := 0
    ns_pid := 13
    ns_parent_pid := 0
    exit_code := 42
    comm := demoComm }

/-- A concrete event trace: a matching fork of pid 5 followed by an exit of
the unrelated pid 7. -/
def demoTrace : List TraceEv :=
  [TraceEv.fork demoComm 5, TraceEv.exitEv demoTask7 true]

lemma mem_mapUpdate_self {m : PidMap} {p : ℕ} (h : p ∈ m ∨ m.card < mapCapacity) :
    p ∈ mapUpdate m p := by
  unfold mapUpdate
  by_cases hp : p ∈ m
  · simp [hp]
  · rcases h with h | h
    · exact absurd h hp
    · simp [hp, h]

lemma mem_mapUpdate_ne {m : PidMap} {p q : ℕ} (h : q ≠ p) :
    q ∈ mapUpdate m p ↔ q ∈ m := by
  unfold mapUpdate
  by_cases hp : p ∈ m
  · simp [hp]
  · by_cases hcard : m.card < mapCapacity
    · simp [hp, hcard, Finset.mem_insert, h]
    · simp [hp, hcard]

lemma handle_fork_map (m : PidMap) (c : List ℕ) (p : ℕ) :
    (handle_fork m c p).map = if commMatch c then mapUpdate m p else m := by
  unfold handle_fork
  by_cases h : commMatch c <;> simp [h]

lemma handle_exit_map (m : PidMap) (t : TaskState) (ok : Bool) :
    (handle_exit m t ok).map = if t.pid ∈ m then m.erase t.pid else m := by
  unfold handle_exit mapDelete
  by_cases h : t.pid ∈ m <;> simp [h]

lemma handle_exit_emitted_nomem (m : PidMap) (t : TaskState) (ok : Bool)
    (h : t.pid ∉ m) : (handle_exit m t ok).emitted = [] := by
  unfold handle_exit
  rw [if_neg h]

lemma mem_traceStep_iff {m : PidMap} {b : Bool} {pid : ℕ} (e : TraceEv)
    (hnl : stepNoLoss m e = true) (hb : pid ∈ m ↔ b = true) :
    pid ∈ traceStep m e ↔ trackedStep pid b e = true := by
  cases e with
  | fork c p =>
    simp only [traceStep, handle_fork_map, trackedStep]
    by_cases hm : commMatch c
    · simp only [hm, if_true, Bool.and_true]
      by_cases hpp : p = pid
      · subst hpp
        simp only [stepNoLoss, hm, Bool.not_true, Bool.false_or,
          Bool.or_eq_true, decide_eq_true_eq] at hnl
        simp [mem_mapUpdate_self hnl]
      · rw [mem_mapUpdate_ne (Ne.symm hpp)]
        simp only [beq_iff_eq, hpp, if_false]
        exact hb
    · simp only [hm, if_false, Bool.and_false, if_false]
      simpa [hm] using hb
  | exitEv t ok =>
    simp only [traceStep, handle_exit_map, trackedStep]
    by_cases hpp : t.pid = pid
    · subst hpp
      by_cases hmem : t.pid ∈ m <;> simp [hmem]
    · simp only [beq_iff_eq, hpp, if_false]
      by_cases hmem : t.pid ∈ m
      · rw [if_pos hmem, Finset.mem_erase]
        simp only [Ne.symm hpp, ne_eq, not_false_eq_true, true_and]
        exact hb
      · rw [if_neg hmem]
        exact hb

lemma mem_foldl_iff {pid : ℕ} : ∀ (es : List TraceEv) (m : PidMap) (b : Bool),
    noLossAux m es = true → (pid ∈ m ↔ b = true) →
    (pid ∈ es.foldl traceStep m ↔ es.foldl (trackedStep pid) b = true)
  | [], _, _, _, hb => hb
  | e :: es, m, b, hnl, hb => by
    simp only [noLossAux, Bool.and_eq_true] at hnl
    simp only [List.foldl_cons]
    exact mem_foldl_iff es (traceStep m e) (trackedStep pid b e) hnl.2
      (mem_traceStep_iff e hnl.1 hb)

lemma trackedSpec_nil {pid : ℕ} : ¬ trackedSpec [] pid := by
  rintro ⟨l, c, r, heq, -, -⟩
  simp at heq

lemma trackedSpec_cons (e : TraceEv) (es : List TraceEv) (pid : ℕ) :
    trackedSpec (e :: es) pid ↔
      trackedSpec es pid ∨
      ∃ c, e = TraceEv.fork c pid ∧ commMatch c = true ∧
        ∀ x ∈ es, isExitOf pid x = false := by
  constructor
  · rintro ⟨l, c, r, heq, hc, hr⟩
    cases l with
    | nil =>
      simp only [List.nil_append] at heq
      injection heq with h1 h2
      subst h2
      exact Or.inr ⟨c, h1, hc, hr⟩
    | cons a l =>
      simp only [List.cons_append] at heq
      injection heq with h1 h2
      exact Or.inl ⟨l, c, r, h2, hc, hr⟩
  · rintro (⟨l, c, r, heq, hc, hr⟩ | ⟨c, he, hc, hr⟩)
    · exact ⟨e :: l, c, r, by rw [heq, List.cons_append], hc, hr⟩
    · exact ⟨[], c, es, by rw [he, List.nil_append], hc, hr⟩

lemma noExit_cases {pid : ℕ} : ∀ {es : List TraceEv},
    (∀ e ∈ es, isExitOf pid e = false) →
    trackedSpec es pid ∨
      ∀ e ∈ es, isExitOf pid e = false ∧ isMatchingForkOf pid e = false := by
  intro es
  induction es with
  | nil =>
    intro _
    right
    intro e he
    cases he
  | cons e es ih =>
    intro hne
    have hne' : ∀ x ∈ es, isExitOf pid x = false :=
      fun x hx => hne x (List.mem_cons_of_mem e hx)
    rcases ih hne' with h | h
    · exact Or.inl ((trackedSpec_cons e es pid).2 (Or.inl h))
    · by_cases hf : isMatchingForkOf pid e = true
      · left
        cases e with
        | fork c p =>
          simp only [isMatchingForkOf, Bool.and_eq_true, beq_iff_eq] at hf
          exact (trackedSpec_cons _ es pid).2 (Or.inr ⟨c, by rw [hf.1], hf.2, hne'⟩)
        | exitEv t ok => simp [isMatchingForkOf] at hf
      · right
        intro x hx
        rcases List.mem_cons.1 hx with rfl | hx
        · exact ⟨hne x (List.mem_cons_self x es), by simpa using hf⟩
        · exact h x hx

lemma foldl_trackedStep_iff {pid : ℕ} : ∀ (es : List TraceEv) (b : Bool),
    es.foldl (trackedStep pid) b = true ↔
      trackedSpec es pid ∨
        (b = true ∧
          ∀ e ∈ es, isExitOf pid e = false ∧ isMatchingForkOf pid e = false) := by
  intro es
  induction es with
  | nil =>
    intro b
    constructor
    · intro hb
      exact Or.inr ⟨hb, by simp⟩
    · rintro (h | ⟨hb, -⟩)
      · exact absurd h trackedSpec_nil
      · exact hb
  | cons e es ih =>
    intro b
    rw [List.foldl_cons, ih, trackedSpec_cons]
    constructor
    · rintro (h | ⟨hb, hN⟩)
      · exact Or.inl (Or.inl h)
      · cases e with
        | fork c p =>
          by_cases hcond : (p == pid && commMatch c) = true
          · simp only [Bool.and_eq_true, beq_iff_eq] at hcond
            obtain ⟨rfl, hm⟩ := hcond
            exact Or.inl (Or.inr ⟨c, rfl, hm, fun x hx => (hN x hx).1⟩)
          · have hb' : b = true := by
              simpa [trackedStep, hcond] using hb
            refine Or.inr ⟨hb', ?_⟩
            intro x hx
            rcases List.mem_cons.1 hx with rfl | hx
            · exact ⟨rfl, by simpa [isMatchingForkOf] using hcond⟩
            · exact hN x hx
        | exitEv t ok =>
          by_cases hpp : (t.pid == pid) = true
          · simp [trackedStep, hpp] at hb
          · have hb' : b = true := by
              simpa [trackedStep, hpp] using hb
            refine Or.inr ⟨hb', ?_⟩
            intro x hx
            rcases List.mem_cons.1 hx with rfl | hx
            · exact ⟨by simpa [isExitOf] using hpp, rfl⟩
            · exact hN x hx
    · rintro ((h | ⟨c', he, hm, hr⟩) | ⟨hb, hN⟩)
      · exact Or.inl h
      · subst he
        rcases noExit_cases hr with h | h
        · exact Or.inl h
        · refine Or.inr ⟨?_, h⟩
          simp [trackedStep, hm]
      · have hNe := hN e (List.mem_cons_self e es)
        have hNes : ∀ x ∈ es, isExitOf pid x = false ∧ isMatchingForkOf pid x = false :=
          fun x hx => hN x (List.mem_cons_of_mem e hx)
        refine Or.inr ⟨?_, hNes⟩
        cases e with
        | fork c p =>
          have h2 : (p == pid && commMatch c) = false := by
            simpa [isMatchingForkOf] using hNe.2
          simp [trackedStep, h2, hb]
        | exitEv t ok =>
          have h1 : (t.pid == pid) = false := by
            simpa [isExitOf] using hNe.1
          simp [trackedStep, h1, hb]

/-- Claim C1: for every raw wait-status value read from the exiting task as a
32-bit integer, the exit code placed in the emitted event equals
128 + (raw AND 0x7F) when the low 7 bits are nonzero, and
(raw >> 8) AND 0xFF otherwise; raw 0x0000 yields 0, raw 0x2A00 yields 42 and
raw 0x0009 yields 137. -/
theorem C1_exit_code_decoding (m : PidMap) (t : TaskState)
    (hmem : t.pid ∈ m) (_h32 : t.exit_code < 2 ^ 32) :
    ((handle_exit m t true).emitted.map Event.exit_code =
      [if t.exit_code &&& 0x7F ≠ 0 then 128 + (t.exit_code &&& 0x7F)
       else (t.exit_code >>> 8) &&& 0xFF]) ∧
    decode_exit_code 0x0000 = 0 ∧
    decode_exit_code 0x2A00 = 42 ∧
    decode_exit_code 0x0009 = 137 := by
  refine ⟨?_, by decide, by decide, by decide⟩
  simp [handle_exit, hmem, decode_exit_code]

/-- Witness for C1 at the concrete task demoTask (raw status 0x2A00) tracked
in a singleton map. -/
theorem C1_witness :
    ((handle_exit {5} demoTask true).emitted.map Event.exit_code =
      [if demoTask.exit_code &&& 0x7F ≠ 0 then 128 + (demoTask.exit_code &&& 0x7F)
       else (demoTask.exit_code >>> 8) &&& 0xFF]) ∧
    decode_exit_code 0x0000 = 0 ∧
    decode_exit_code 0x2A00 = 42 ∧
    decode_exit_code 0x0009 = 137 :=
  C1_exit_code_decoding {5} demoTask (by decide) (by decide)

/-- Claim C3: the namespace pid resolver returns the per-level id at index
level when 1 ≤ level ≤ 7 and the id at index 0 otherwise; depth 0 gives the
outermost id, depth 3 the id at index 3, and depth 9 falls back to index 0. -/
theorem C3_ns_pid_resolution (p : PidStruct) :
    (1 ≤ p.level → p.level ≤ 7 → get_task_ns_pid p = p.numbers.getD p.level 0) ∧
    ((p.level = 0 ∨ 8 ≤ p.level) → get_task_ns_pid p = p.numbers.getD 0 0) ∧
    get_task_ns_pid ⟨0, demoNumbers⟩ = 10 ∧
    get_task_ns_pid ⟨3, demoNumbers⟩ = 13 ∧
    get_task_ns_pid ⟨9, demoNumbers⟩ = 10 := by
  refine ⟨?_, ?_, by decide, by decide, by decide⟩
  · intro h1 h7
    have h : 0 < p.level ∧ p.level < 8 := ⟨by omega, by omega⟩
    simp [get_task_ns_pid, h]
  · intro h
    have h' : ¬(0 < p.level ∧ p.level < 8) := by omega
    simp [get_task_ns_pid, h']

/-- Witness for C3 at depth 3 (in range) and depth 9 (out of range). -/
theorem C3_witness :
    get_task_ns_pid ⟨3, demoNumbers⟩ = demoNumbers.getD 3 0 ∧
    get_task_ns_pid ⟨9, demoNumbers⟩ = demoNumbers.getD 0 0 :=
  ⟨(C3_ns_pid_resolution ⟨3, demoNumbers⟩).1 (by decide) (by decide),
   (C3_ns_pid_resolution ⟨9, demoNumbers⟩).2.1 (Or.inr (by decide))⟩

/-- Claim C8: an exit whose pid has no tracking entry has no effect: nothing
is emitted and the map is unchanged. -/
theorem C8_untracked_exit_no_effect (m : PidMap) (t : TaskState) (ok : Bool)
    (h : t.pid ∉ m) :
    (handle_exit m t ok).map = m ∧ (handle_exit m t ok).emitted = [] ∧
    (handle_exit m t ok).ret = 0 := by
  simp [handle_exit, h]

/-- Witness for C8: the exit of an untracked pid against the empty map. -/
theorem C8_witness :
    (handle_exit ∅ demoTask true).map = ∅ ∧
    (handle_exit ∅ demoTask true).emitted = [] ∧
    (handle_exit ∅ demoTask true).ret = 0 :=
  C8_untracked_exit_no_effect ∅ demoTask true (by decide)

/-- Claim C9: with the 8-entry per-level id array of struct pid, every array
access of the resolver is in bounds: the Option-returning embedded read
always succeeds, and it agrees with the totalised read. -/
theorem C9_resolver_in_bounds (p : PidStruct) (h8 : p.numbers.length = 8) :
    (get_task_ns_pidO p).isSome = true ∧
    get_task_ns_pidO p = some (get_task_ns_pid p) := by
  have main : get_task_ns_pidO p = some (get_task_ns_pid p) := by
    by_cases hc : 0 < p.level ∧ p.level < 8
    · have hlt : p.level < p.numbers.length := by omega
      unfold get_task_ns_pidO get_task_ns_pid
      rw [if_pos hc, if_pos hc, List.get?_eq_getElem?, List.getElem?_eq_getElem hlt,
          List.getD_eq_getElem?_getD, List.getElem?_eq_getElem hlt]
      rfl
    · have hlt : 0 < p.numbers.length := by omega
      unfold get_task_ns_pidO get_task_ns_pid
      rw [if_neg hc, if_neg hc, List.get?_eq_getElem?, List.getElem?_eq_getElem hlt,
          List.getD_eq_getElem?_getD, List.getElem?_eq_getElem hlt]
      rfl
  exact ⟨by rw [main]; rfl, main⟩

/-- Witness for C9 at an out-of-range depth over a full 8-entry array. -/
theorem C9_witness :
    (get_task_ns_pidO ⟨9, demoNumbers⟩).isSome = true ∧
    get_task_ns_pidO ⟨9, demoNumbers⟩ = some (get_task_ns_pid ⟨9, demoNumbers⟩) :=
  C9_resolver_in_bounds ⟨9, demoNumbers⟩ (by decide)

/-- Claim C5: a tracked exit emits exactly one event when the channel accepts
the write, deletes the tracking entry whether or not the write succeeded, and
a second exit of the same (reused) pid with no intervening matching fork
emits nothing. -/
theorem C5_tracked_exit_once (m : PidMap) (t : TaskState) (h : t.pid ∈ m) :
    (handle_exit m t true).emitted.length = 1 ∧
    (∀ ok : Bool, (handle_exit m t ok).map = m.erase t.pid) ∧
    (∀ ok : Bool, t.pid ∉ (handle_exit m t ok).map) ∧
    (∀ (ok ok' : Bool) (t' : TaskState), t'.pid = t.pid →
      (handle_exit (handle_exit m t ok).map t' ok').emitted = []) := by
  refine ⟨by simp [handle_exit, h], ?_, ?_, ?_⟩
  · intro ok
    rw [handle_exit_map, if_pos h]
  · intro ok
    rw [handle_exit_map, if_pos h]
    exact Finset.not_mem_erase _ _
  · intro ok ok' t' ht'
    have hm' : t'.pid ∉ (handle_exit m t ok).map := by
      rw [handle_exit_map, if_pos h, ht']
      exact Finset.not_mem_erase _ _
    exact handle_exit_emitted_nomem _ _ _ hm'

/-- Witness for C5: demoTask tracked in a singleton map, both channel
outcomes, and a reused-pid second exit. -/
theorem C5_witness :
    (handle_exit {5} demoTask true).emitted.length = 1 ∧
    (∀ ok : Bool, (handle_exit {5} demoTask ok).map =
      Finset.erase {5} demoTask.pid) ∧
    (∀ ok : Bool, demoTask.pid ∉ (handle_exit {5} demoTask ok).map) ∧
    (∀ (ok ok' : Bool) (t' : TaskState), t'.pid = demoTask.pid →
      (handle_exit (handle_exit {5} demoTask ok).map t' ok').emitted = []) :=
  C5_tracked_exit_once {5} demoTask (by decide)

/-- Claim C7: both handlers return 0 on every input and every path, and with
the map at its fixed capacity of 10240 entries an insert of a fresh pid fails
silently, leaving every existing entry intact. -/
theorem C7_total_and_capacity (m : PidMap) (c : List ℕ) (p : ℕ)
    (t : TaskState) (ok : Bool) :
    (handle_fork m c p).ret = 0 ∧ (handle_exit m t ok).ret = 0 ∧
    (m.card = mapCapacity → p ∉ m → (handle_fork m c p).map = m) := by
  refine ⟨?_, ?_, ?_⟩
  · unfold handle_fork
    by_cases h : commMatch c <;> simp [h]
  · unfold handle_exit
    by_cases h : t.pid ∈ m <;> simp [h]
  · intro hcard hp
    rw [handle_fork_map]
    by_cases h : commMatch c
    · rw [if_pos h]
      unfold mapUpdate
      rw [if_neg hp, if_neg (by omega)]
    · rw [if_neg h]

/-- Witness for C7 at a map holding exactly 10240 entries and a fresh pid. -/
theorem C7_witness :
    (handle_fork (Finset.range mapCapacity) demoComm 10240).map =
      Finset.range mapCapacity :=
  (C7_total_and_capacity (Finset.range mapCapacity) demoComm 10240
      demoTask7 true).2.2 (by simp) (by simp [mapCapacity])

/-- Claim C10: when the real-parent handle of the exiting task is null, the
emitted event reports 0 both for the global parent pid (the guarded read
through the null handle yields 0) and for the namespace parent pid. -/
theorem C10_null_parent_zero (m : PidMap) (t : TaskState)
    (hmem : t.pid ∈ m) (hp : t.real_parent = none) :
    ∀ e ∈ (handle_exit m t true).emitted,
      e.parent_pid = 0 ∧ e.ns_parent_pid = 0 := by
  simp [handle_exit, hmem, readParentPid, nsParentPidOf, hp]

/-- Witness for C10: demoTask has a null real parent, and demoEvent is the
record it emits. -/
theorem C10_witness : demoEvent.parent_pid = 0 ∧ demoEvent.ns_parent_pid = 0 :=
  C10_null_parent_zero {5} demoTask (by decide) (by decide) demoEvent (by decide)

/-- Claim C6: every emitted record has exactly the fields pid, parent_pid,
ns_pid, ns_parent_pid, exit_code, comm in that order with widths
4, 4, 4, 4, 4, 16 bytes; pid is the terminating process global id,
parent_pid the live real-parent id, the namespace fields come from the
resolver applied to the task and to its real parent, and comm is the short
name read fresh at exit time (the fork handler stores nothing but the pid,
so no fork-time name can be reported). -/
theorem C6_event_layout (m : PidMap) (t : TaskState)
    (hmem : t.pid ∈ m) (hc : t.comm.length = 16) :
    (handle_exit m t true).emitted =
      [{ pid := t.pid
         parent_pid := readParentPid t
         ns_pid := get_task_ns_pid t.thread_pid
         ns_parent_pid := nsParentPidOf t
         exit_code := decode_exit_code t.exit_code
         comm := t.comm }] ∧
    ∀ e ∈ (handle_exit m t true).emitted,
      (eventBytes e).length = 36 ∧
      (eventBytes e).take 4 = u32Bytes e.pid ∧
      ((eventBytes e).drop 4).take 4 = u32Bytes e.parent_pid ∧
      ((eventBytes e).drop 8).take 4 = u32Bytes e.ns_pid ∧
      ((eventBytes e).drop 12).take 4 = u32Bytes e.ns_parent_pid ∧
      ((eventBytes e).drop 16).take 4 = u32Bytes e.exit_code ∧
      (eventBytes e).drop 20 = e.comm ∧
      e.comm = t.comm := by
  have hemit : (handle_exit m t true).emitted =
      [{ pid := t.pid
         parent_pid := readParentPid t
         ns_pid := get_task_ns_pid t.thread_pid
         ns_parent_pid := nsParentPidOf t
         exit_code := decode_exit_code t.exit_code
         comm := t.comm }] := by
    simp [handle_exit, hmem]
  refine ⟨hemit, ?_⟩
  intro e he
  rw [hemit, List.mem_singleton] at he
  subst he
  refine ⟨?_, rfl, rfl, rfl, rfl, rfl, rfl, rfl⟩
  simp [eventBytes, u32Bytes, hc]

/-- Witness for C6 at demoTask (16-byte comm) tracked in a singleton map. -/
theorem C6_witness :
    (handle_exit {5} demoTask true).emitted =
      [{ pid := demoTask.pid
         parent_pid := readParentPid demoTask
         ns_pid := get_task_ns_pid demoTask.thread_pid
         ns_parent_pid := nsParentPidOf demoTask
         exit_code := decode_exit_code demoTask.exit_code
         comm := demoTask.comm }] :=
  (C6_event_layout {5} demoTask (by decide) (by decide)).1

/-- Claim C2: the fork handler inserts the child pid iff the 16-byte parent
comm matches one of the three fixed patterns (first four bytes "cron", first
four bytes "CRON", or first five bytes "crond"); on a match it performs
exactly one upsert of the child pid (overwrite if already present, here with
room or the pid already present), and on a non-match the map is left
completely unchanged. -/
theorem C2_fork_filter (m : PidMap) (c : List ℕ) (p : ℕ) (hc : c.length = 16) :
    (commMatch c = true ↔ matchesPatterns c) ∧
    (commMatch c = true → (handle_fork m c p).updates = 1 ∧
      ((p ∈ m ∨ m.card < mapCapacity) →
        ∀ q, q ∈ (handle_fork m c p).map ↔ q ∈ m ∨ q = p)) ∧
    (commMatch c = false →
      (handle_fork m c p).updates = 0 ∧ (handle_fork m c p).map = m) := by
  refine ⟨?_, ?_, ?_⟩
  · rcases c with _ | ⟨a0, c⟩; · simp at hc
    rcases c with _ | ⟨a1, c⟩; · simp at hc
    rcases c with _ | ⟨a2, c⟩; · simp at hc
    rcases c with _ | ⟨a3, c⟩; · simp at hc
    rcases c with _ | ⟨a4, c⟩; · simp at hc
    simp only [commMatch, matchesPatterns, cronBytes, cronUpperBytes, crondBytes,
      List.getD_cons_zero, List.getD_cons_succ, List.take_succ_cons,
      List.take_zero, Bool.or_eq_true, Bool.and_eq_true, beq_iff_eq,
      List.cons.injEq, and_true]
    tauto
  · intro hm
    have h1 : (handle_fork m c p).updates = 1 := by
      unfold handle_fork
      rw [if_pos hm]
    refine ⟨h1, ?_⟩
    intro hroom q
    rw [handle_fork_map, if_pos hm]
    by_cases hq : q = p
    · subst hq
      simp [mem_mapUpdate_self hroom]
    · rw [mem_mapUpdate_ne hq]
      simp [hq]
  · intro hm
    unfold handle_fork
    rw [if_neg (by simp [hm])]
    exact ⟨rfl, rfl⟩

/-- Witness for C2 at the comm buffer "cron" padded to 16 bytes. -/
theorem C2_witness :
    (commMatch demoComm = true ↔ matchesPatterns demoComm) ∧
    ((handle_fork ∅ demoComm 5).updates = 1) ∧
    (∀ q, q ∈ (handle_fork ∅ demoComm 5).map ↔ q ∈ (∅ : PidMap) ∨ q = 5) := by
  have h := C2_fork_filter ∅ demoComm 5 (by decide)
  exact ⟨h.1, (h.2.1 (by decide)).1, (h.2.1 (by decide)).2 (Or.inr (by decide))⟩

/-- Claim C4: starting from the empty tracking map, for every interleaving of
fork and exit events in which no insert is lost to capacity, a pid has an
entry iff some fork event was observed whose child was that pid and whose
parent comm matched the filter, and no exit event for that pid has been
processed since that fork. -/
theorem C4_tracking_invariant (es : List TraceEv) (pid : ℕ)
    (hnl : noLoss es = true) :
    pid ∈ runMap es ↔
      ∃ l c r, es = l ++ TraceEv.fork c pid :: r ∧ commMatch c = true ∧
        ∀ e ∈ r, isExitOf pid e = false := by
  have h1 := @mem_foldl_iff pid es ∅ false hnl (by simp)
  unfold runMap
  rw [h1, foldl_trackedStep_iff]
  simp [trackedSpec]

/-- Witness for C4 on the concrete trace demoTrace: pid 5 is enrolled by the
matching fork and the only exit processed afterwards is for pid 7. -/
theorem C4_witness :
    noLoss demoTrace = true ∧
    (5 ∈ runMap demoTrace ↔
      ∃ l c r, demoTrace = l ++ TraceEv.fork c 5 :: r ∧ commMatch c = true ∧
        ∀ e ∈ r, isExitOf 5 e = false) :=
  ⟨by decide, C4_tracking_invariant demoTrace 5 (by decide)⟩

end NodeGuarder
